import Mathlib

/-!
Shallow embedding of the `VanessaRuntime` class (the bridging engine of the
vanessa_debugger extension): breakpoint registry with line normalization,
execution-state tracking (start / continue / step over a line-split source
file), persistence of the breakpoint set, the status-file watcher callback,
and the external-position handler `setCurrentLineInSource`.

File-system reads (`fs.readFileSync(file).toString()`) are modelled by a
function `fs : String → String` from paths to contents.  Emitted events
(`sendEvent`, which defers via `setImmediate` but preserves call order) are
returned as a list of event-name strings in call order.
-/

/-- `VanessaBreakpoint` interface: `{id, line, verified}`. -/
structure VanessaBreakpoint where
  id : Nat
  line : Nat
  verified : Bool
deriving DecidableEq, Repr

/-- One record of the persisted breakpoints file: `{file, breakpoints}`. -/
structure PersistRecord where
  file : String
  breakpoints : List VanessaBreakpoint
deriving DecidableEq, Repr

/-- The `_breakPoints` field: a JS `Map` from path to breakpoint array,
modelled as an insertion-ordered association list (JS `Map` iterates and
updates in insertion order). -/
abbrev BreakMap := List (String × List VanessaBreakpoint)

/-- JS `Map.get`. -/
def mapGet (m : BreakMap) (k : String) : Option (List VanessaBreakpoint) :=
  (m.find? (fun e => e.1 == k)).map (fun e => e.2)

/-- JS `Map.set`: updates the existing entry in place, else appends. -/
def mapSet : BreakMap → String → List VanessaBreakpoint → BreakMap
  | [], k, v => [(k, v)]
  | (k', v') :: rest, k, v =>
    if k' == k then (k', v) :: rest else (k', v') :: mapSet rest k v

/-- JS `Map.delete`. -/
def mapDelete (m : BreakMap) (k : String) : BreakMap :=
  m.filter (fun e => !(e.1 == k))

/-- Mutable state of a `VanessaRuntime` instance.  `persistedFile` models the
current content of the breakpoints file on disk (written only by
`saveBreakpointsToFile`); it starts empty. -/
structure RuntimeState where
  sourceFile : Option String
  sourceLines : List String
  currentLine : Int
  breakPoints : BreakMap
  breakpointId : Nat
  persistedFile : List PersistRecord
deriving DecidableEq, Repr

/-- Constructor state: `_currentLine = 0`, `_breakpointId = 1`, empty map;
`_sourceFile`/`_sourceLines` are still unset (modelled as `none` / `[]`). -/
def initialState : RuntimeState :=
  ⟨none, [], 0, [], 1, []⟩

/-- JS `String.prototype.split('\n')` on the character list: always returns at
least one piece; a trailing newline yields a trailing empty piece. -/
def splitLinesChars : List Char → List (List Char)
  | [] => [[]]
  | c :: cs =>
    if c = '\n' then [] :: splitLinesChars cs
    else
      match splitLinesChars cs with
      | [] => [[c]]
      | l :: ls => (c :: l) :: ls

/-- `contents.split('\n')` as used by `loadSource`. -/
def splitLines (s : String) : List String :=
  (splitLinesChars s.data).map String.mk

/-- The whitespace class removed by JS `String.prototype.trim` (restricted to
the ASCII whitespace characters). -/
def jsWhitespace (c : Char) : Bool :=
  [' ', '\t', '\n', '\r', '\x0b', '\x0c'].contains c

/-- JS `String.prototype.trim`: strips whitespace from both ends. -/
def jsTrim (s : String) : String :=
  String.mk (((s.data.dropWhile jsWhitespace).reverse.dropWhile jsWhitespace).reverse)

/-- JS `String.prototype.indexOf` for a single character: first index, `-1`
when absent. -/
def jsIndexOfAux (c : Char) : List Char → Int
  | [] => -1
  | x :: xs =>
    if x = c then 0
    else
      let r := jsIndexOfAux c xs
      if r = -1 then -1 else r + 1

/-- `s.indexOf(c)`. -/
def jsIndexOf (s : String) (c : Char) : Int :=
  jsIndexOfAux c s.data

/-- `loadSource`: reload `_sourceFile`/`_sourceLines` only when the active
file changes (`if (this._sourceFile !== file)`). -/
def loadSource (fs : String → String) (file : String) (st : RuntimeState) : RuntimeState :=
  if st.sourceFile ≠ some file then
    { st with sourceFile := some file, sourceLines := splitLines (fs file) }
  else st

/-- The body of the `forEach` in `verifyBreakpoints`, applied to one
breakpoint: an unverified breakpoint within bounds whose trimmed source line
is empty or has `'+'` at index 0 is moved down one line. -/
def verifyBp (lines : List String) (bp : VanessaBreakpoint) : VanessaBreakpoint :=
  if bp.verified = false ∧ bp.line < lines.length then
    let srcLine := jsTrim (lines.getD bp.line "")
    if srcLine.length = 0 ∨ jsIndexOf srcLine '+' = 0 then
      { bp with line := bp.line + 1 }
    else bp
  else bp

/-- `verifyBreakpoints(path)`: when the map has an entry for `path`
(a JS array, truthy even when empty), load the source and run the
per-breakpoint pass over the entry in place. -/
def verifyBreakpoints (fs : String → String) (path : String) (st : RuntimeState) : RuntimeState :=
  match mapGet st.breakPoints path with
  | none => st
  | some bps =>
    let st1 := loadSource fs path st
    { st1 with breakPoints := mapSet st1.breakPoints path (bps.map (verifyBp st1.sourceLines)) }

/-- JS truthiness of the optional `stepEvent` string argument of `run`
(`undefined` and `''` are falsy). -/
def truthy : Option String → Bool
  | none => false
  | some s => !(s == "")

/-- `fireEventsForLine(ln, stepEvent)`: returns whether execution stops,
together with the events sent. -/
def fireEventsForLine (currentLine : Int) (ln : Int) (stepEvent : Option String) :
    Bool × List String :=
  if truthy stepEvent ∧ currentLine ≤ ln then
    (true, [stepEvent.getD ""])
  else (false, [])

/-- The `for` loop of `run`, with enough fuel to cover every iteration; the
loop body never mutates `_currentLine` before returning. -/
def runAux (lines : List String) (currentLine : Int) (stepEvent : Option String) :
    Int → Nat → Int × List String
  | _, 0 => (currentLine, ["end"])
  | ln, Nat.succ fuel =>
    if ln < (lines.length : Int) then
      match fireEventsForLine currentLine ln stepEvent with
      | (true, evs) => (ln, evs)
      | (false, _) => runAux lines currentLine stepEvent (ln + 1) fuel
    else (currentLine, ["end"])

/-- `run(stepEvent?)`: scan from `_currentLine + 1`; on a stop, set
`_currentLine` to the stopping line; otherwise send `end`. -/
def run (st : RuntimeState) (stepEvent : Option String) : RuntimeState × List String :=
  let r := runAux st.sourceLines st.currentLine stepEvent (st.currentLine + 1)
    (((st.sourceLines.length : Int) - (st.currentLine + 1)).toNat + 1)
  ({ st with currentLine := r.1 }, r.2)

/-- `step(reverse, event)`: `this.run(event)` (the `reverse` flag is unused). -/
def step (st : RuntimeState) (event : String) : RuntimeState × List String :=
  run st (some event)

/-- `continue(reverse)`: `this.run(undefined)`. -/
def «continue» (st : RuntimeState) : RuntimeState × List String :=
  run st none

/-- `start(featureFilePath, stopOnEntry)`.  After `loadSource`,
`this._sourceFile === featureFilePath`, so the `verifyBreakpoints(this._sourceFile)`
call is passed the path directly. -/
def start (fs : String → String) (featureFilePath : String) (stopOnEntry : Bool)
    (st : RuntimeState) : RuntimeState × List String :=
  let st1 := loadSource fs featureFilePath st
  let st2 := { st1 with currentLine := -1 }
  let st3 := verifyBreakpoints fs featureFilePath st2
  if stopOnEntry then step st3 "stopOnEntry" else «continue» st3

/-- `saveBreakpointsToFile`: serialize the whole map, one `{file, breakpoints}`
record per entry, in insertion order. -/
def saveBreakpointsToFile (m : BreakMap) : List PersistRecord :=
  m.map (fun e => ⟨e.1, e.2⟩)

/-- The `fs.writeFileSync` of `saveBreakpointsToFile`: replace the persisted
file's content with the serialization of the current map. -/
def doSave (st : RuntimeState) : RuntimeState :=
  { st with persistedFile := saveBreakpointsToFile st.breakPoints }

/-- Reading the persisted breakpoints file back: the record for `file`, if any. -/
def loadPersisted (records : List PersistRecord) (file : String) :
    Option (List VanessaBreakpoint) :=
  (records.find? (fun r => r.file == file)).map (fun r => r.breakpoints)

/-- `setBreakPoint(path, line)`: increment the id counter, push the new
unverified breakpoint, verify the file, persist, and return the pushed
breakpoint (which verification may have line-adjusted in place — modelled by
reading back the last element of the entry). -/
def setBreakPoint (fs : String → String) (path : String) (line : Nat)
    (st : RuntimeState) : VanessaBreakpoint × RuntimeState :=
  let newId := st.breakpointId + 1
  let bp : VanessaBreakpoint := ⟨newId, line, false⟩
  let bps := (mapGet st.breakPoints path).getD []
  let st1 := { st with breakpointId := newId,
                       breakPoints := mapSet st.breakPoints path (bps ++ [bp]) }
  let st2 := verifyBreakpoints fs path st1
  let st3 := doSave st2
  (((mapGet st3.breakPoints path).getD []).getLastD bp, st3)

/-- The `findIndex` + `splice(index, 1)` pair of `clearBreakPoint`: remove the
first breakpoint whose `line` equals the given value. -/
def removeFirstByLine (line : Nat) : List VanessaBreakpoint →
    Option (VanessaBreakpoint × List VanessaBreakpoint)
  | [] => none
  | bp :: rest =>
    if bp.line = line then some (bp, rest)
    else
      match removeFirstByLine line rest with
      | none => none
      | some (found, rest') => some (found, bp :: rest')

/-- `clearBreakPoint(path, line)`: remove the first match if any and persist;
persist and return `undefined` when there is no match. -/
def clearBreakPoint (path : String) (line : Nat) (st : RuntimeState) :
    Option VanessaBreakpoint × RuntimeState :=
  match mapGet st.breakPoints path with
  | some bps =>
    match removeFirstByLine line bps with
    | some (bp, rest) =>
      (some bp, doSave { st with breakPoints := mapSet st.breakPoints path rest })
    | none => (none, doSave st)
  | none => (none, doSave st)

/-- `clearBreakpoints(path)`: delete the whole entry and persist. -/
def clearBreakpoints (path : String) (st : RuntimeState) : RuntimeState :=
  doSave { st with breakPoints := mapDelete st.breakPoints path }

/-- The debug-info record the status file carries:
`{file: string, line: number, status: string, done?: boolean}`. -/
structure DebugInfo where
  file : String
  line : Int
  status : String
  done : Option Bool
deriving DecidableEq, Repr

/-- Observable requests `setCurrentLineInSource` makes of VS Code, plus
deferred event emission, in call order. -/
inductive Effect where
  | openDoc (path : String)
  | showDoc (path : String)
  | emitEvent (ev : String)
  | execCommand (cmd : String)
deriving DecidableEq, Repr

/-- `setCurrentLineInSource(debugInfo)`.  `editor` is
`vscode.window.activeTextEditor?.document.fileName`.  When the reported file
differs from the editor's, the document is opened and shown, then
`start(debugInfo.file, true)` runs, `_currentLine` is set, and a step-over
command is issued; otherwise only the position and step-over command. -/
def setCurrentLineInSource (fs : String → String) (editor : Option String)
    (st : RuntimeState) (debugInfo : DebugInfo) : RuntimeState × List Effect :=
  match editor with
  | some fname =>
    if debugInfo.file ≠ fname then
      let r := start fs debugInfo.file true st
      ({ r.1 with currentLine := debugInfo.line - 1 },
        [Effect.openDoc debugInfo.file, Effect.showDoc debugInfo.file]
          ++ r.2.map Effect.emitEvent
          ++ [Effect.execCommand "workbench.action.debug.stepOver"])
    else
      ({ st with currentLine := debugInfo.line - 1 },
        [Effect.execCommand "workbench.action.debug.stepOver"])
  | none =>
    ({ st with currentLine := debugInfo.line - 1 },
      [Effect.execCommand "workbench.action.debug.stepOver"])

/-! ### A model of `JSON.parse` for the status file

The watcher callback calls Node's `JSON.parse(data)`, which throws on content
that is not valid JSON.  We model it with a small recursive-descent parser
(integers only, basic string escapes — the value shapes the status file uses),
followed by the decode to the TypeScript shape
`{file: string, line: number, status: string, done?: boolean}`. -/

inductive Json where
  | null
  | bool (b : Bool)
  | num (n : Int)
  | str (s : String)
  | arr (elems : List Json)
  | obj (fields : List (String × Json))

/-- Skip JSON whitespace. -/
def skipWs : List Char → List Char
  | c :: cs => if [' ', '\n', '\t', '\r'].contains c then skipWs cs else c :: cs
  | [] => []

/-- Basic JSON string escapes, as a lookup table. -/
def escapePairs : List (Char × Char) :=
  [('"', '"'), ('\\', '\\'), ('/', '/'), ('n', '\n'), ('t', '\t'), ('r', '\r'),
    ('b', '\x08'), ('f', '\x0c')]

def unescapeChar (e : Char) : Option Char :=
  (escapePairs.find? (fun p => p.1 == e)).map (fun p => p.2)

/-- Parse the remainder of a JSON string literal (after the opening quote). -/
def parseStringLit (acc : List Char) : List Char → Except String (String × List Char)
  | [] => Except.error "unterminated string"
  | c :: cs =>
    if c = '"' then Except.ok (String.mk acc.reverse, cs)
    else if c = '\\' then
      match cs with
      | [] => Except.error "unterminated escape"
      | e :: cs2 =>
        match unescapeChar e with
        | some d => parseStringLit (d :: acc) cs2
        | none => Except.error "unsupported escape"
    else parseStringLit (c :: acc) cs

/-- Consume a run of decimal digits, accumulating their value. -/
def takeDigits (acc : Nat) : List Char → Nat × List Char
  | c :: cs => if c.isDigit then takeDigits (acc * 10 + (c.toNat - 48)) cs else (acc, c :: cs)
  | [] => (acc, [])

/-- Parse an unsigned run of digits (fractions and exponents are rejected). -/
def parseNatDigits (cs : List Char) : Except String (Nat × List Char) :=
  match cs with
  | c :: _ =>
    if c.isDigit then
      let r := takeDigits 0 cs
      match r.2 with
      | '.' :: _ => Except.error "unsupported number"
      | 'e' :: _ => Except.error "unsupported number"
      | 'E' :: _ => Except.error "unsupported number"
      | _ => Except.ok r
    else Except.error "unexpected token"
  | [] => Except.error "unexpected end of input"

/-- Parse a JSON integer literal, with an optional leading minus sign. -/
def parseNumber (cs : List Char) : Except String (Int × List Char) :=
  match cs with
  | '-' :: cs1 =>
    (match parseNatDigits cs1 with
     | Except.error e => Except.error e
     | Except.ok r => Except.ok (-(r.1 : Int), r.2))
  | _ =>
    match parseNatDigits cs with
    | Except.error e => Except.error e
    | Except.ok r => Except.ok ((r.1 : Int), r.2)

mutual

/-- Parse one JSON value. -/
def parseValue : Nat → List Char → Except String (Json × List Char)
  | 0, _ => Except.error "input too deeply nested"
  | Nat.succ fuel, cs =>
    let stream0 := skipWs cs
    if "null".data.isPrefixOf stream0 then Except.ok (Json.null, stream0.drop 4)
    else if "true".data.isPrefixOf stream0 then Except.ok (Json.bool true, stream0.drop 4)
    else if "false".data.isPrefixOf stream0 then Except.ok (Json.bool false, stream0.drop 5)
    else match stream0 with
    | '"' :: rest =>
      match parseStringLit [] rest with
      | Except.error e => Except.error e
      | Except.ok (s, rest') => Except.ok (Json.str s, rest')
    | '[' :: rest =>
      (match skipWs rest with
       | ']' :: rest' => Except.ok (Json.arr [], rest')
       | stream => match parseArrayElems fuel stream with
         | Except.error e => Except.error e
         | Except.ok (xs, rest') => Except.ok (Json.arr xs, rest'))
    | '{' :: rest =>
      (match skipWs rest with
       | '}' :: rest' => Except.ok (Json.obj [], rest')
       | stream => match parseObjFields fuel stream with
         | Except.error e => Except.error e
         | Except.ok (fs, rest') => Except.ok (Json.obj fs, rest'))
    | stream =>
      match parseNumber stream with
      | Except.error e => Except.error e
      | Except.ok (n, rest) => Except.ok (Json.num n, rest)

/-- Parse one-or-more comma-separated array elements up to `']'`. -/
def parseArrayElems : Nat → List Char → Except String (List Json × List Char)
  | 0, _ => Except.error "input too deeply nested"
  | Nat.succ fuel, cs =>
    match parseValue fuel cs with
    | Except.error e => Except.error e
    | Except.ok (v, rest) =>
      match skipWs rest with
      | ',' :: rest' =>
        (match parseArrayElems fuel rest' with
         | Except.error e => Except.error e
         | Except.ok (vs, rest'') => Except.ok (v :: vs, rest''))
      | ']' :: rest' => Except.ok ([v], rest')
      | _ => Except.error "expected comma or closing bracket"

/-- Parse one-or-more comma-separated object fields up to the closing brace. -/
def parseObjFields : Nat → List Char → Except String (List (String × Json) × List Char)
  | 0, _ => Except.error "input too deeply nested"
  | Nat.succ fuel, cs =>
    match skipWs cs with
    | '"' :: rest =>
      (match parseStringLit [] rest with
       | Except.error e => Except.error e
       | Except.ok (key, rest1) =>
         match skipWs rest1 with
         | ':' :: rest2 =>
           (match parseValue fuel rest2 with
            | Except.error e => Except.error e
            | Except.ok (v, rest3) =>
              match skipWs rest3 with
              | ',' :: rest4 =>
                (match parseObjFields fuel rest4 with
                 | Except.error e => Except.error e
                 | Except.ok (flds, rest5) => Except.ok ((key, v) :: flds, rest5))
              | '}' :: rest4 => Except.ok ([(key, v)], rest4)
              | _ => Except.error "expected comma or closing brace")
         | _ => Except.error "expected colon"
       )
    | _ => Except.error "expected field name"

end

/-- Look up a field of a parsed JSON object. -/
def jsonLookup (fields : List (String × Json)) (k : String) : Option Json :=
  (fields.find? (fun f => f.1 == k)).map (fun f => f.2)

/-- `JSON.parse(data) as {file, line, status, done?}`: parse the full input as
one JSON value and decode the expected record shape; `Except.error` models a
thrown exception. -/
def jsonParseDebugInfo (s : String) : Except String DebugInfo :=
  match parseValue (s.length + 8) s.data with
  | Except.error e => Except.error e
  | Except.ok (j, rest) =>
    if skipWs rest ≠ [] then Except.error "unexpected trailing characters"
    else
      match j with
      | Json.obj fields =>
        (match jsonLookup fields "file", jsonLookup fields "line",
               jsonLookup fields "status" with
         | some (Json.str f), some (Json.num l), some (Json.str stat) =>
           Except.ok ⟨f, l, stat,
             match jsonLookup fields "done" with
             | some (Json.bool b) => some b
             | _ => none⟩
         | _, _, _ => Except.error "missing fields")
      | _ => Except.error "not an object"

/-- The `fs.readFile` callback installed by the constructor's `fs.watchFile`:
`readResult` is `none` when the read failed (`data` undefined) and
`some data` otherwise.  `if (data)` skips empty or unread content; the
`JSON.parse` call is not wrapped in any try/catch, so a parse failure
(`Except.error`) propagates out of the callback.  On success the decoded
record is handed to `setCurrentLineInSource` (returned here). -/
def watchFileCallback (readResult : Option String) :
    Except String (Option DebugInfo) :=
  match readResult with
  | none => Except.ok none
  | some data =>
    if data = "" then Except.ok none
    else
      match jsonParseDebugInfo data with
      | Except.error e => Except.error e
      | Except.ok info => Except.ok (some info)

/-! ### Operation traces

A session interleaves registry calls, execution-state calls, and
watcher-driven external updates.  `RuntimeOp` is one such call (with the
ambient inputs it reads: the file system, the active editor). -/

inductive RuntimeOp where
  | set (path : String) (line : Nat)
  | clear (path : String) (line : Nat)
  | clearAll (path : String)
  | verify (path : String)
  | startOp (file : String) (stopOnEntry : Bool)
  | continueOp
  | stepOp (event : String)
  | external (editor : Option String) (info : DebugInfo)
deriving DecidableEq

/-- The state transition of one operation (events/effects discarded). -/
def applyOp (fs : String → String) (op : RuntimeOp) (st : RuntimeState) : RuntimeState :=
  match op with
  | RuntimeOp.set path line => (setBreakPoint fs path line st).2
  | RuntimeOp.clear path line => (clearBreakPoint path line st).2
  | RuntimeOp.clearAll path => clearBreakpoints path st
  | RuntimeOp.verify path => verifyBreakpoints fs path st
  | RuntimeOp.startOp file soe => (start fs file soe st).1
  | RuntimeOp.continueOp => («continue» st).1
  | RuntimeOp.stepOp ev => (step st ev).1
  | RuntimeOp.external ed info => (setCurrentLineInSource fs ed st info).1

/-- Run a whole sequence of operations. -/
def runOps (fs : String → String) (ops : List RuntimeOp) (st : RuntimeState) : RuntimeState :=
  match ops with
  | [] => st
  | op :: rest => runOps fs rest (applyOp fs op st)

/-- The ids returned by the `setBreakPoint` calls of a trace, in call order. -/
def traceIds (fs : String → String) : List RuntimeOp → RuntimeState → List Nat
  | [], _ => []
  | RuntimeOp.set path line :: rest, st =>
    (setBreakPoint fs path line st).1.id
      :: traceIds fs rest (applyOp fs (RuntimeOp.set path line) st)
  | op :: rest, st => traceIds fs rest (applyOp fs op st)

/-- Whether an operation is one of the mutating registry calls
(`setBreakPoint` / `clearBreakPoint` / `clearBreakpoints`). -/
def isRegistryOp : RuntimeOp → Bool
  | RuntimeOp.set _ _ => true
  | RuntimeOp.clear _ _ => true
  | RuntimeOp.clearAll _ => true
  | _ => false

/-! ### Basic lemmas about the map model and state projections -/

theorem mapGet_mapSet_self (m : BreakMap) (k : String) (v : List VanessaBreakpoint) :
    mapGet (mapSet m k v) k = some v := by
  induction m with
  | nil => simp [mapSet, mapGet, List.find?]
  | cons e rest ih =>
    by_cases h : e.1 == k
    · simp [mapSet, h, mapGet, List.find?]
    · cases e with
      | mk k' v' =>
        simp only at h
        simp [mapSet, h, mapGet, List.find?] at ih ⊢
        exact ih

theorem mem_mapSet {m : BreakMap} {k : String} {v : List VanessaBreakpoint}
    {e : String × List VanessaBreakpoint} (h : e ∈ mapSet m k v) :
    e ∈ m ∨ e = (k, v) := by
  induction m with
  | nil => simp [mapSet] at h; simp [h]
  | cons e' rest ih =>
    cases e' with
    | mk k' v' =>
      by_cases hk : k' == k
      · simp [mapSet, hk] at h
        rcases h with h | h
        · right
          have : k' = k := eq_of_beq hk
          simp [h, this]
        · left; simp [h]
      · simp [mapSet, hk] at h
        rcases h with h | h
        · left; simp [h]
        · rcases ih h with h' | h'
          · left; simp [h']
          · right; exact h'

theorem mem_mapDelete {m : BreakMap} {k : String}
    {e : String × List VanessaBreakpoint} (h : e ∈ mapDelete m k) : e ∈ m :=
  (List.mem_filter.mp h).1

theorem mapGet_some_mem {m : BreakMap} {k : String} {v : List VanessaBreakpoint}
    (h : mapGet m k = some v) : (k, v) ∈ m := by
  unfold mapGet at h
  cases hf : m.find? (fun e => e.1 == k) with
  | none => simp [hf] at h
  | some e =>
    simp [hf] at h
    have hmem := List.mem_of_find?_eq_some hf
    have hkey := List.find?_some hf
    cases e with
    | mk k' v' =>
      simp only at hkey h
      have : k' = k := eq_of_beq hkey
      rw [← this, ← h]
      simpa using hmem

theorem splitLinesChars_ne_nil (cs : List Char) : splitLinesChars cs ≠ [] := by
  induction cs with
  | nil => simp [splitLinesChars]
  | cons c cs ih =>
    unfold splitLinesChars
    split
    · simp
    · cases h : splitLinesChars cs with
      | nil => exact absurd h ih
      | cons l ls => simp

theorem splitLines_ne_nil (s : String) : splitLines s ≠ [] := by
  unfold splitLines
  simp [splitLinesChars_ne_nil]

theorem loadSource_currentLine (fs : String → String) (f : String) (st : RuntimeState) :
    (loadSource fs f st).currentLine = st.currentLine := by
  unfold loadSource; split <;> rfl

theorem loadSource_breakPoints (fs : String → String) (f : String) (st : RuntimeState) :
    (loadSource fs f st).breakPoints = st.breakPoints := by
  unfold loadSource; split <;> rfl

theorem loadSource_breakpointId (fs : String → String) (f : String) (st : RuntimeState) :
    (loadSource fs f st).breakpointId = st.breakpointId := by
  unfold loadSource; split <;> rfl

theorem loadSource_persistedFile (fs : String → String) (f : String) (st : RuntimeState) :
    (loadSource fs f st).persistedFile = st.persistedFile := by
  unfold loadSource; split <;> rfl

theorem loadSource_sourceFile (fs : String → String) (f : String) (st : RuntimeState) :
    (loadSource fs f st).sourceFile = some f := by
  unfold loadSource
  split
  · rfl
  · rename_i h
    simpa using h

theorem loadSource_of_eq (fs : String → String) {f : String} {st : RuntimeState}
    (h : st.sourceFile = some f) : loadSource fs f st = st := by
  unfold loadSource
  simp [h]

theorem loadSource_sourceLines_ne_nil (fs : String → String) (f : String) (st : RuntimeState)
    (h : st.sourceFile = some f → st.sourceLines ≠ []) :
    (loadSource fs f st).sourceLines ≠ [] := by
  unfold loadSource
  split
  · simp [splitLines_ne_nil]
  · rename_i hne
    simp only [not_not] at hne
    exact h hne

theorem verifyBreakpoints_currentLine (fs : String → String) (p : String) (st : RuntimeState) :
    (verifyBreakpoints fs p st).currentLine = st.currentLine := by
  unfold verifyBreakpoints
  cases mapGet st.breakPoints p with
  | none => rfl
  | some bps => simp [loadSource_currentLine]

theorem verifyBreakpoints_breakpointId (fs : String → String) (p : String) (st : RuntimeState) :
    (verifyBreakpoints fs p st).breakpointId = st.breakpointId := by
  unfold verifyBreakpoints
  cases mapGet st.breakPoints p with
  | none => rfl
  | some bps => simp [loadSource_breakpointId]

theorem verifyBreakpoints_persistedFile (fs : String → String) (p : String) (st : RuntimeState) :
    (verifyBreakpoints fs p st).persistedFile = st.persistedFile := by
  unfold verifyBreakpoints
  cases mapGet st.breakPoints p with
  | none => rfl
  | some bps => simp [loadSource_persistedFile]

theorem verifyBreakpoints_sourceLines_of_eq (fs : String → String) {p : String}
    {st : RuntimeState} (h : st.sourceFile = some p) :
    (verifyBreakpoints fs p st).sourceLines = st.sourceLines := by
  unfold verifyBreakpoints
  cases mapGet st.breakPoints p with
  | none => rfl
  | some bps => simp [loadSource_of_eq fs h]

theorem run_breakPoints (st : RuntimeState) (e : Option String) :
    (run st e).1.breakPoints = st.breakPoints := rfl

theorem run_breakpointId (st : RuntimeState) (e : Option String) :
    (run st e).1.breakpointId = st.breakpointId := rfl

theorem run_persistedFile (st : RuntimeState) (e : Option String) :
    (run st e).1.persistedFile = st.persistedFile := rfl

theorem doSave_breakPoints (st : RuntimeState) : (doSave st).breakPoints = st.breakPoints := rfl

theorem doSave_breakpointId (st : RuntimeState) : (doSave st).breakpointId = st.breakpointId := rfl

/-! ### Characterization of `run` -/

theorem fireEventsForLine_none (cur ln : Int) :
    fireEventsForLine cur ln none = (false, []) := by
  simp [fireEventsForLine, truthy]

theorem fireEventsForLine_some {s : String} (hs : s ≠ "") {cur ln : Int} (h : cur ≤ ln) :
    fireEventsForLine cur ln (some s) = (true, [s]) := by
  simp [fireEventsForLine, truthy, hs, h, Option.getD]

theorem runAux_none (lines : List String) (cur : Int) :
    ∀ (fuel : Nat) (ln : Int), runAux lines cur none ln fuel = (cur, ["end"]) := by
  intro fuel
  induction fuel with
  | zero => intro ln; rfl
  | succ n ih =>
    intro ln
    unfold runAux
    split
    · rw [fireEventsForLine_none]
      exact ih (ln + 1)
    · rfl

theorem run_none (st : RuntimeState) : run st none = (st, ["end"]) := by
  unfold run
  rw [runAux_none]

theorem runAux_first_stop {s : String} (hs : s ≠ "") {lines : List String} {cur ln : Int}
    (hle : cur ≤ ln) (hlt : ln < (lines.length : Int)) (fuel : Nat) :
    runAux lines cur (some s) ln (fuel + 1) = (ln, [s]) := by
  unfold runAux
  rw [if_pos hlt, fireEventsForLine_some hs hle]

theorem runAux_out {lines : List String} {cur ln : Int} (e : Option String)
    (h : ¬ ln < (lines.length : Int)) (fuel : Nat) :
    runAux lines cur e ln (fuel + 1) = (cur, ["end"]) := by
  unfold runAux
  rw [if_neg h]

theorem run_some_lt {st : RuntimeState} {s : String} (hs : s ≠ "")
    (h : st.currentLine + 1 < (st.sourceLines.length : Int)) :
    run st (some s) = ({ st with currentLine := st.currentLine + 1 }, [s]) := by
  unfold run
  rw [runAux_first_stop hs (by omega) h]

theorem run_some_ge {st : RuntimeState} (s : Option String)
    (h : (st.sourceLines.length : Int) ≤ st.currentLine + 1) :
    run st s = (st, ["end"]) := by
  unfold run
  rw [runAux_out s (by omega)]

/-- **C2**: `continue()` never stops at a breakpoint: from any state (whatever
the breakpoint set) it leaves the state unchanged and emits exactly one `end`
event; and `start(file, stopOnEntry := false)` likewise emits exactly one
`end` event and no `stopOnStep`/`stopOnEntry`. -/
theorem c2_continue_runs_to_end (st : RuntimeState) (fs : String → String) (file : String) :
    «continue» st = (st, ["end"]) ∧ (start fs file false st).2 = ["end"] := by
  constructor
  · exact run_none st
  · unfold start «continue»
    simp only [Bool.false_eq_true, if_false, run_none]

/-- **C3**: with a loaded file, `step(event)` (for a truthy event name)
advances `currentLine` to exactly the next line and emits exactly one
occurrence of the event when `currentLine + 1` is still a valid line index;
when no next line exists it emits `end` instead and leaves the state
unchanged. -/
theorem c3_step_advances_one_line (st : RuntimeState) (event : String) (hev : event ≠ "") :
    (st.currentLine + 1 < (st.sourceLines.length : Int) →
      step st event = ({ st with currentLine := st.currentLine + 1 }, [event])) ∧
    ((st.sourceLines.length : Int) ≤ st.currentLine + 1 →
      step st event = (st, ["end"])) := by
  constructor
  · intro h
    exact run_some_lt hev h
  · intro h
    exact run_some_ge (some event) h

/-- Concrete state for the C3 witness: a two-line file with the cursor on
line 0. -/
def c3State : RuntimeState :=
  ⟨some "a.feature", ["first line", "second line"], 0, [], 1, []⟩

/-- Witness for C3 at a concrete input: stepping from line 0 of a two-line
file moves to line 1 and emits one `stopOnStep`. -/
theorem c3_step_advances_one_line_witness :
    step c3State "stopOnStep" = ({ c3State with currentLine := 1 }, ["stopOnStep"]) :=
  (c3_step_advances_one_line c3State "stopOnStep" (by decide)).1 (by decide)

/-! ### C1: line normalization -/

theorem jsIndexOfAux_eq_zero_iff (c : Char) (l : List Char) :
    jsIndexOfAux c l = 0 ↔ l.head? = some c := by
  cases l with
  | nil => simp [jsIndexOfAux]
  | cons x xs =>
    unfold jsIndexOfAux
    by_cases hx : x = c
    · simp [hx]
    · simp only [if_neg hx, List.head?_cons]
      constructor
      · intro h
        exfalso
        by_cases hr : jsIndexOfAux c xs = -1
        · simp only [hr, if_pos] at h
          omega
        · simp only [if_neg hr] at h
          omega
      · intro h
        simp at h
        exact absurd h hx

theorem string_length_eq_zero_iff (s : String) : s.length = 0 ↔ s = "" := by
  cases s with
  | mk data => simp [String.length, String.ext_iff]

/-- The source condition `srcLine.length === 0 || srcLine.indexOf('+') === 0`
is exactly "the trimmed content is empty or begins with `'+'`". -/
theorem verifyCond_iff (s : String) :
    (s.length = 0 ∨ jsIndexOf s '+' = 0) ↔ (s = "" ∨ s.data.head? = some '+') := by
  rw [string_length_eq_zero_iff, jsIndexOf, jsIndexOfAux_eq_zero_iff]

/-- **C1**: one verification pass maps the per-breakpoint normalization over
the file's breakpoint sequence (against the freshly loaded source lines), and
that per-breakpoint step reads the line at the breakpoint's index, trims it,
and: advances the line by exactly one when the trimmed content is empty or
begins with `'+'`; leaves it unchanged on ordinary content; and leaves
breakpoints at or beyond the document's line count untouched. -/
theorem c1_verifyBreakpoints_normalization (fs : String → String) (st : RuntimeState)
    (path : String) (bps : List VanessaBreakpoint) (lines : List String)
    (bp : VanessaBreakpoint) (h : mapGet st.breakPoints path = some bps) :
    mapGet (verifyBreakpoints fs path st).breakPoints path
      = some (bps.map (verifyBp (loadSource fs path st).sourceLines)) ∧
    (lines.length ≤ bp.line → verifyBp lines bp = bp) ∧
    (bp.verified = false → bp.line < lines.length →
      ((jsTrim (lines.getD bp.line "") = "" ∨
          (jsTrim (lines.getD bp.line "")).data.head? = some '+') →
        verifyBp lines bp = ⟨bp.id, bp.line + 1, bp.verified⟩) ∧
      (¬(jsTrim (lines.getD bp.line "") = "" ∨
          (jsTrim (lines.getD bp.line "")).data.head? = some '+') →
        verifyBp lines bp = bp)) := by
  refine ⟨?_, ?_, ?_⟩
  · unfold verifyBreakpoints
    rw [h]
    simp only [loadSource_breakPoints]
    exact mapGet_mapSet_self st.breakPoints path _
  · intro h2
    unfold verifyBp
    rw [if_neg]
    intro hc
    omega
  · intro hv hlt
    constructor
    · intro hcond
      unfold verifyBp
      rw [if_pos ⟨hv, hlt⟩, if_pos ((verifyCond_iff _).mpr hcond)]
    · intro hcond
      unfold verifyBp
      rw [if_pos ⟨hv, hlt⟩, if_neg (fun hc => hcond ((verifyCond_iff _).mp hc))]

/-- Concrete state for the C1 witness: a four-line file whose line 1 is blank
and whose line 2 starts with `'+'`, with three unverified breakpoints. -/
def c1State : RuntimeState :=
  ⟨some "a.feature", ["Given x", "   ", "  + And y", "Then z"], 0,
    [("a.feature", [⟨2, 1, false⟩, ⟨3, 0, false⟩, ⟨4, 9, false⟩])], 4, []⟩

/-- Witness for C1 at a concrete input: the blank-line breakpoint moves from
line 1 to 2, the ordinary-content breakpoint stays at 0, the out-of-bounds
breakpoint stays at 9; the `'+'`-line case is exercised through the
per-breakpoint clauses. -/
theorem c1_verifyBreakpoints_normalization_witness :
    mapGet (verifyBreakpoints (fun _ => "") "a.feature" c1State).breakPoints "a.feature"
      = some ([⟨2, 1, false⟩, ⟨3, 0, false⟩, ⟨4, 9, false⟩].map
          (verifyBp (loadSource (fun _ => "") "a.feature" c1State).sourceLines)) ∧
    ((["Given x", "   ", "  + And y", "Then z"] : List String).length ≤ 1 →
      verifyBp ["Given x", "   ", "  + And y", "Then z"] ⟨2, 1, false⟩ = ⟨2, 1, false⟩) ∧
    ((false : Bool) = false → 1 < (["Given x", "   ", "  + And y", "Then z"] : List String).length →
      ((jsTrim ((["Given x", "   ", "  + And y", "Then z"] : List String).getD 1 "") = "" ∨
          (jsTrim ((["Given x", "   ", "  + And y", "Then z"] : List String).getD 1 "")).data.head?
            = some '+') →
        verifyBp ["Given x", "   ", "  + And y", "Then z"] ⟨2, 1, false⟩ = ⟨2, 2, false⟩) ∧
      (¬(jsTrim ((["Given x", "   ", "  + And y", "Then z"] : List String).getD 1 "") = "" ∨
          (jsTrim ((["Given x", "   ", "  + And y", "Then z"] : List String).getD 1 "")).data.head?
            = some '+') →
        verifyBp ["Given x", "   ", "  + And y", "Then z"] ⟨2, 1, false⟩ = ⟨2, 1, false⟩)) :=
  c1_verifyBreakpoints_normalization (fun _ => "") c1State "a.feature"
    [⟨2, 1, false⟩, ⟨3, 0, false⟩, ⟨4, 9, false⟩]
    ["Given x", "   ", "  + And y", "Then z"] ⟨2, 1, false⟩ (by decide)

/-! ### C4: clearBreakPoint -/

theorem removeFirstByLine_eq_none {line : Nat} {l : List VanessaBreakpoint}
    (h : ∀ x ∈ l, x.line ≠ line) : removeFirstByLine line l = none := by
  induction l with
  | nil => rfl
  | cons bp rest ih =>
    unfold removeFirstByLine
    rw [if_neg (h bp (by simp)), ih (fun x hx => h x (by simp [hx]))]

theorem removeFirstByLine_first {line : Nat} {pre post : List VanessaBreakpoint}
    {bp : VanessaBreakpoint} (hpre : ∀ x ∈ pre, x.line ≠ line) (hbp : bp.line = line) :
    removeFirstByLine line (pre ++ bp :: post) = some (bp, pre ++ post) := by
  induction pre with
  | nil => simp [removeFirstByLine, hbp]
  | cons x rest ih =>
    have hx : x.line ≠ line := hpre x (by simp)
    simp only [List.cons_append, removeFirstByLine, if_neg hx, List.append_eq]
    rw [ih (fun y hy => hpre y (by simp [hy]))]

/-- **C4**: `clearBreakPoint(path, line)` always rewrites the persisted file;
with no entry or no matching breakpoint it returns `undefined` and leaves the
breakpoint map untouched; with a match it removes exactly the first
breakpoint (in insertion order) whose `line` equals the given value and
returns it. -/
theorem c4_clearBreakPoint (st : RuntimeState) (path : String) (line : Nat)
    (bps pre post : List VanessaBreakpoint) (bp : VanessaBreakpoint) :
    (clearBreakPoint path line st).2.persistedFile
      = saveBreakpointsToFile (clearBreakPoint path line st).2.breakPoints ∧
    (mapGet st.breakPoints path = none →
      clearBreakPoint path line st = (none, doSave st)) ∧
    (mapGet st.breakPoints path = some bps → (∀ x ∈ bps, x.line ≠ line) →
      clearBreakPoint path line st = (none, doSave st)) ∧
    (mapGet st.breakPoints path = some (pre ++ bp :: post) → (∀ x ∈ pre, x.line ≠ line) →
      bp.line = line →
      (clearBreakPoint path line st).1 = some bp ∧
      mapGet (clearBreakPoint path line st).2.breakPoints path = some (pre ++ post)) := by
  refine ⟨?_, ?_, ?_, ?_⟩
  · cases hm : mapGet st.breakPoints path with
    | none => simp [clearBreakPoint, hm, doSave]
    | some bps' =>
      cases hr : removeFirstByLine line bps' with
      | none => simp [clearBreakPoint, hm, hr, doSave]
      | some p => simp [clearBreakPoint, hm, hr, doSave]
  · intro h
    simp [clearBreakPoint, h]
  · intro h hall
    simp [clearBreakPoint, h, removeFirstByLine_eq_none hall]
  · intro h hpre hbp
    constructor
    · simp [clearBreakPoint, h, removeFirstByLine_first hpre hbp]
    · simp only [clearBreakPoint, h, removeFirstByLine_first hpre hbp]
      simpa [doSave] using mapGet_mapSet_self st.breakPoints path (pre ++ post)

/-- Concrete state for the C4 witness: one file with breakpoints at lines
3, 5, 5 (ids 2, 3, 4). -/
def c4State : RuntimeState :=
  ⟨none, [], 0, [("a.feature", [⟨2, 3, false⟩, ⟨3, 5, false⟩, ⟨4, 5, false⟩])], 4, []⟩

/-- Witness for C4 at concrete inputs: clearing line 9 (no match) returns
`undefined` with the map untouched; clearing line 5 removes the first of the
two line-5 breakpoints (id 3) and keeps the other. -/
theorem c4_clearBreakPoint_witness :
    clearBreakPoint "a.feature" 9 c4State = (none, doSave c4State) ∧
    (clearBreakPoint "a.feature" 5 c4State).1 = some ⟨3, 5, false⟩ ∧
    mapGet (clearBreakPoint "a.feature" 5 c4State).2.breakPoints "a.feature"
      = some ([⟨2, 3, false⟩] ++ [⟨4, 5, false⟩]) :=
  ⟨(c4_clearBreakPoint c4State "a.feature" 9
      [⟨2, 3, false⟩, ⟨3, 5, false⟩, ⟨4, 5, false⟩] [] [] ⟨2, 3, false⟩).2.2.1
      (by decide) (by decide),
   (c4_clearBreakPoint c4State "a.feature" 5
      [] [⟨2, 3, false⟩] [⟨4, 5, false⟩] ⟨3, 5, false⟩).2.2.2
      (by decide) (by decide) (by decide)⟩

/-! ### C5: persistence round-trip -/

theorem loadPersisted_saveBreakpointsToFile (m : BreakMap) (f : String) :
    loadPersisted (saveBreakpointsToFile m) f = mapGet m f := by
  induction m with
  | nil => rfl
  | cons e rest ih =>
    cases e with
    | mk k v =>
      by_cases h : k == f
      · simp [loadPersisted, saveBreakpointsToFile, mapGet, List.find?, h]
      · simp only [loadPersisted, saveBreakpointsToFile, mapGet, List.map_cons,
          List.find?] at ih ⊢
        simp only [h]
        exact ih

/-- Every mutating registry call ends in `saveBreakpointsToFile`, so it leaves
the persisted file equal to the serialization of the in-memory map. -/
theorem applyOp_persisted_synced (fs : String → String) (op : RuntimeOp) (st : RuntimeState)
    (h : isRegistryOp op = true) :
    (applyOp fs op st).persistedFile
      = saveBreakpointsToFile (applyOp fs op st).breakPoints := by
  cases op with
  | set path line => simp [applyOp, setBreakPoint, doSave]
  | clear path line =>
    cases hm : mapGet st.breakPoints path with
    | none => simp [applyOp, clearBreakPoint, hm, doSave]
    | some bps' =>
      cases hr : removeFirstByLine line bps' with
      | none => simp [applyOp, clearBreakPoint, hm, hr, doSave]
      | some p => simp [applyOp, clearBreakPoint, hm, hr, doSave]
  | clearAll path => simp [applyOp, clearBreakpoints, doSave]
  | verify path => simp [isRegistryOp] at h
  | startOp file soe => simp [isRegistryOp] at h
  | continueOp => simp [isRegistryOp] at h
  | stepOp ev => simp [isRegistryOp] at h
  | external ed info => simp [isRegistryOp] at h

theorem runOps_persisted_synced (fs : String → String) (ops : List RuntimeOp)
    (st : RuntimeState)
    (hs : st.persistedFile = saveBreakpointsToFile st.breakPoints)
    (hreg : ∀ op ∈ ops, isRegistryOp op = true) :
    (runOps fs ops st).persistedFile
      = saveBreakpointsToFile (runOps fs ops st).breakPoints := by
  induction ops generalizing st with
  | nil => exact hs
  | cons op rest ih =>
    exact ih (applyOp fs op st)
      (applyOp_persisted_synced fs op st (hreg op (by simp)))
      (fun o ho => hreg o (by simp [ho]))

/-- **C5**: after any sequence of mutating registry calls
(`setBreakPoint` / `clearBreakPoint` / `clearBreakpoints`) from the initial
state, the persisted breakpoints file is exactly the full serialization of
the in-memory map — one `{file, breakpoints}` record per file still present
in the mapping, empty sequences included — and reloading it reproduces, for
every file, exactly the in-memory breakpoint sequence and hence its
`{id, line}` pairs. -/
theorem c5_persistence_roundtrip (fs : String → String) (ops : List RuntimeOp)
    (file : String) (hreg : ∀ op ∈ ops, isRegistryOp op = true) :
    (runOps fs ops initialState).persistedFile
      = saveBreakpointsToFile (runOps fs ops initialState).breakPoints ∧
    loadPersisted (runOps fs ops initialState).persistedFile file
      = mapGet (runOps fs ops initialState).breakPoints file ∧
    (loadPersisted (runOps fs ops initialState).persistedFile file).map
        (List.map (fun bp => (bp.id, bp.line)))
      = (mapGet (runOps fs ops initialState).breakPoints file).map
        (List.map (fun bp => (bp.id, bp.line))) := by
  have hsync := runOps_persisted_synced fs ops initialState rfl hreg
  refine ⟨hsync, ?_, ?_⟩
  · rw [hsync, loadPersisted_saveBreakpointsToFile]
  · rw [hsync, loadPersisted_saveBreakpointsToFile]

/-- Concrete trace for the C5 witness: set two breakpoints, then clear one;
the file stays in the mapping with a single breakpoint. -/
def c5Ops : List RuntimeOp :=
  [RuntimeOp.set "a.feature" 0, RuntimeOp.set "a.feature" 1, RuntimeOp.clear "a.feature" 0]

/-- Witness for C5 at a concrete trace. -/
theorem c5_persistence_roundtrip_witness :
    (runOps (fun _ => "Given x") c5Ops initialState).persistedFile
      = saveBreakpointsToFile (runOps (fun _ => "Given x") c5Ops initialState).breakPoints ∧
    loadPersisted (runOps (fun _ => "Given x") c5Ops initialState).persistedFile "a.feature"
      = mapGet (runOps (fun _ => "Given x") c5Ops initialState).breakPoints "a.feature" ∧
    (loadPersisted (runOps (fun _ => "Given x") c5Ops initialState).persistedFile
        "a.feature").map (List.map (fun bp => (bp.id, bp.line)))
      = (mapGet (runOps (fun _ => "Given x") c5Ops initialState).breakPoints "a.feature").map
        (List.map (fun bp => (bp.id, bp.line))) :=
  c5_persistence_roundtrip (fun _ => "Given x") c5Ops "a.feature" (by decide)

/-! ### C7/C8/C9: registry invariants -/

theorem verifyBp_id (lines : List String) (bp : VanessaBreakpoint) :
    (verifyBp lines bp).id = bp.id := by
  unfold verifyBp
  split
  · dsimp only
    split <;> rfl
  · rfl

theorem verifyBp_verified (lines : List String) (bp : VanessaBreakpoint) :
    (verifyBp lines bp).verified = bp.verified := by
  unfold verifyBp
  split
  · dsimp only
    split <;> rfl
  · rfl

theorem mapGet_verifyBreakpoints (fs : String → String) (path : String) (st : RuntimeState)
    {bps : List VanessaBreakpoint} (h : mapGet st.breakPoints path = some bps) :
    mapGet (verifyBreakpoints fs path st).breakPoints path
      = some (bps.map (verifyBp (loadSource fs path st).sourceLines)) := by
  unfold verifyBreakpoints
  rw [h]
  simp only [loadSource_breakPoints]
  exact mapGet_mapSet_self st.breakPoints path _

theorem setBreakPoint_breakpointId (fs : String → String) (p : String) (l : Nat)
    (st : RuntimeState) :
    (setBreakPoint fs p l st).2.breakpointId = st.breakpointId + 1 := by
  simp [setBreakPoint, doSave_breakpointId, verifyBreakpoints_breakpointId]

theorem setBreakPoint_fst_id (fs : String → String) (p : String) (l : Nat)
    (st : RuntimeState) :
    (setBreakPoint fs p l st).1.id = st.breakpointId + 1 := by
  unfold setBreakPoint
  simp only [doSave_breakPoints]
  rw [mapGet_verifyBreakpoints fs p _ (mapGet_mapSet_self st.breakPoints p _)]
  simp only [Option.getD_some, List.map_append, List.map_cons, List.map_nil]
  rw [List.getLastD_concat]
  exact verifyBp_id _ _

theorem clearBreakPoint_breakpointId (p : String) (l : Nat) (st : RuntimeState) :
    (clearBreakPoint p l st).2.breakpointId = st.breakpointId := by
  cases hm : mapGet st.breakPoints p with
  | none => simp [clearBreakPoint, hm, doSave_breakpointId]
  | some bps =>
    cases hr : removeFirstByLine l bps with
    | none => simp [clearBreakPoint, hm, hr, doSave_breakpointId]
    | some pair => simp [clearBreakPoint, hm, hr, doSave_breakpointId]

theorem clearBreakpoints_breakpointId (p : String) (st : RuntimeState) :
    (clearBreakpoints p st).breakpointId = st.breakpointId := rfl

theorem start_breakpointId (fs : String → String) (f : String) (b : Bool)
    (st : RuntimeState) :
    (start fs f b st).1.breakpointId = st.breakpointId := by
  unfold start step «continue»
  split <;>
    simp [run_breakpointId, verifyBreakpoints_breakpointId, loadSource_breakpointId]

theorem setCurrentLineInSource_breakpointId (fs : String → String) (ed : Option String)
    (st : RuntimeState) (info : DebugInfo) :
    (setCurrentLineInSource fs ed st info).1.breakpointId = st.breakpointId := by
  cases ed with
  | none => rfl
  | some f =>
    simp only [setCurrentLineInSource]
    split <;> simp [start_breakpointId]

theorem applyOp_breakpointId_le (fs : String → String) (op : RuntimeOp) (st : RuntimeState) :
    st.breakpointId ≤ (applyOp fs op st).breakpointId := by
  cases op with
  | set p l => rw [applyOp, setBreakPoint_breakpointId]; omega
  | clear p l => rw [applyOp, clearBreakPoint_breakpointId]
  | clearAll p => rw [applyOp, clearBreakpoints_breakpointId]
  | verify p => rw [applyOp, verifyBreakpoints_breakpointId]
  | startOp f b => rw [applyOp, start_breakpointId]
  | continueOp => exact le_of_eq rfl
  | stepOp ev => exact le_of_eq rfl
  | external ed info => rw [applyOp, setCurrentLineInSource_breakpointId]

/-- Registry invariant, relative to the current id counter: every breakpoint
of every file is unverified, carries an id at most the counter, and ids
within one file's sequence are strictly increasing in insertion order. -/
def BpInv (c : Nat) (m : BreakMap) : Prop :=
  ∀ e ∈ m, (∀ bp ∈ e.2, bp.verified = false ∧ bp.id ≤ c) ∧
    e.2.Pairwise (fun a b => a.id < b.id)

theorem BpInv.mono {c c' : Nat} {m : BreakMap} (h : BpInv c m) (hc : c ≤ c') :
    BpInv c' m := fun e he =>
  ⟨fun bp hbp => ⟨((h e he).1 bp hbp).1, le_trans ((h e he).1 bp hbp).2 hc⟩, (h e he).2⟩

theorem BpInv_mapSet_map_verifyBp {c : Nat} {m : BreakMap} {path : String}
    {bps : List VanessaBreakpoint} (h : BpInv c m) (hget : mapGet m path = some bps)
    (lines : List String) :
    BpInv c (mapSet m path (bps.map (verifyBp lines))) := by
  intro e he
  rcases mem_mapSet he with he' | he'
  · exact h e he'
  · subst he'
    have hmem := h (path, bps) (mapGet_some_mem hget)
    constructor
    · intro bp hbp
      rcases List.mem_map.mp hbp with ⟨a, ha, rfl⟩
      refine ⟨?_, ?_⟩
      · rw [verifyBp_verified]
        exact (hmem.1 a ha).1
      · rw [verifyBp_id]
        exact (hmem.1 a ha).2
    · rw [List.pairwise_map]
      refine hmem.2.imp ?_
      intro a b hab
      rwa [verifyBp_id, verifyBp_id]

theorem BpInv_verifyBreakpoints (fs : String → String) (path : String) (st : RuntimeState)
    (h : BpInv st.breakpointId st.breakPoints) :
    BpInv (verifyBreakpoints fs path st).breakpointId
      (verifyBreakpoints fs path st).breakPoints := by
  rw [verifyBreakpoints_breakpointId]
  unfold verifyBreakpoints
  cases hm : mapGet st.breakPoints path with
  | none => exact h
  | some bps =>
    simp only [loadSource_breakPoints]
    exact BpInv_mapSet_map_verifyBp h hm _

/-- Pushing a fresh breakpoint with id `c + 1` preserves the invariant at the
incremented counter. -/
theorem BpInv_push (c : Nat) (m : BreakMap) (p : String) (l : Nat) (h : BpInv c m) :
    BpInv (c + 1) (mapSet m p ((mapGet m p).getD [] ++ [⟨c + 1, l, false⟩])) := by
  intro e he
  rcases mem_mapSet he with he' | he'
  · exact h.mono (by omega) e he'
  · subst he'
    cases hm : mapGet m p with
    | none =>
      simp only [hm, Option.getD_none, List.nil_append]
      exact ⟨fun bp hbp => by simp at hbp; simp [hbp], by simp⟩
    | some bps =>
      simp only [hm, Option.getD_some]
      have hmem := h (p, bps) (mapGet_some_mem hm)
      constructor
      · intro bp hbp
        rcases List.mem_append.mp hbp with hin | hin
        · exact ⟨(hmem.1 bp hin).1, by have := (hmem.1 bp hin).2; omega⟩
        · simp at hin
          simp [hin]
      · rw [List.pairwise_append]
        refine ⟨hmem.2, List.pairwise_singleton _ _, ?_⟩
        intro a ha b hb
        simp at hb
        have := (hmem.1 a ha).2
        simp [hb]
        omega

theorem BpInv_setBreakPoint (fs : String → String) (p : String) (l : Nat)
    (st : RuntimeState) (h : BpInv st.breakpointId st.breakPoints) :
    BpInv (setBreakPoint fs p l st).2.breakpointId
      (setBreakPoint fs p l st).2.breakPoints := by
  unfold setBreakPoint
  dsimp only
  simp only [doSave_breakpointId, doSave_breakPoints]
  exact BpInv_verifyBreakpoints fs p _ (BpInv_push st.breakpointId st.breakPoints p l h)

theorem removeFirstByLine_sublist {line : Nat} {l rest : List VanessaBreakpoint}
    {bp : VanessaBreakpoint} (h : removeFirstByLine line l = some (bp, rest)) :
    rest.Sublist l := by
  induction l generalizing rest with
  | nil => simp [removeFirstByLine] at h
  | cons x xs ih =>
    unfold removeFirstByLine at h
    by_cases hx : x.line = line
    · rw [if_pos hx] at h
      simp at h
      obtain ⟨h1, h2⟩ := h
      subst h2
      exact List.sublist_cons_self x xs
    · rw [if_neg hx] at h
      cases hr : removeFirstByLine line xs with
      | none => rw [hr] at h; simp at h
      | some pr =>
        obtain ⟨found, rest'⟩ := pr
        rw [hr] at h
        simp at h
        obtain ⟨h1, h2⟩ := h
        subst h2
        subst h1
        exact (ih hr).cons₂ x

theorem BpInv_clearBreakPoint (p : String) (l : Nat) (st : RuntimeState)
    (h : BpInv st.breakpointId st.breakPoints) :
    BpInv (clearBreakPoint p l st).2.breakpointId
      (clearBreakPoint p l st).2.breakPoints := by
  rw [clearBreakPoint_breakpointId]
  cases hm : mapGet st.breakPoints p with
  | none => simp only [clearBreakPoint, hm, doSave_breakPoints]; exact h
  | some bps =>
    cases hr : removeFirstByLine l bps with
    | none => simp only [clearBreakPoint, hm, hr, doSave_breakPoints]; exact h
    | some pr =>
      obtain ⟨bp, rest⟩ := pr
      simp only [clearBreakPoint, hm, hr, doSave_breakPoints]
      intro e he
      rcases mem_mapSet he with he' | he'
      · exact h e he'
      · subst he'
        have hmem := h (p, bps) (mapGet_some_mem hm)
        have hsub := removeFirstByLine_sublist hr
        exact ⟨fun b hb => hmem.1 b (hsub.subset hb), hmem.2.sublist hsub⟩

theorem BpInv_clearBreakpoints (p : String) (st : RuntimeState)
    (h : BpInv st.breakpointId st.breakPoints) :
    BpInv (clearBreakpoints p st).breakpointId (clearBreakpoints p st).breakPoints := by
  intro e he
  exact h e (mem_mapDelete he)

theorem BpInv_start (fs : String → String) (f : String) (b : Bool) (st : RuntimeState)
    (h : BpInv st.breakpointId st.breakPoints) :
    BpInv (start fs f b st).1.breakpointId (start fs f b st).1.breakPoints := by
  have hload : BpInv (loadSource fs f st).breakpointId (loadSource fs f st).breakPoints := by
    rw [loadSource_breakpointId, loadSource_breakPoints]
    exact h
  unfold start step «continue»
  split <;>
  · show BpInv (run _ _).1.breakpointId (run _ _).1.breakPoints
    rw [run_breakpointId, run_breakPoints]
    exact BpInv_verifyBreakpoints fs f _ hload

theorem BpInv_setCurrentLineInSource (fs : String → String) (ed : Option String)
    (st : RuntimeState) (info : DebugInfo) (h : BpInv st.breakpointId st.breakPoints) :
    BpInv (setCurrentLineInSource fs ed st info).1.breakpointId
      (setCurrentLineInSource fs ed st info).1.breakPoints := by
  cases ed with
  | none => exact h
  | some f =>
    simp only [setCurrentLineInSource]
    split
    · exact BpInv_start fs info.file true st h
    · exact h

theorem BpInv_applyOp (fs : String → String) (op : RuntimeOp) (st : RuntimeState)
    (h : BpInv st.breakpointId st.breakPoints) :
    BpInv (applyOp fs op st).breakpointId (applyOp fs op st).breakPoints := by
  cases op with
  | set p l => exact BpInv_setBreakPoint fs p l st h
  | clear p l => exact BpInv_clearBreakPoint p l st h
  | clearAll p => exact BpInv_clearBreakpoints p st h
  | verify p => exact BpInv_verifyBreakpoints fs p st h
  | startOp f b => exact BpInv_start fs f b st h
  | continueOp => exact h
  | stepOp ev => exact h
  | external ed info => exact BpInv_setCurrentLineInSource fs ed st info h

theorem BpInv_runOps (fs : String → String) (ops : List RuntimeOp) (st : RuntimeState)
    (h : BpInv st.breakpointId st.breakPoints) :
    BpInv (runOps fs ops st).breakpointId (runOps fs ops st).breakPoints := by
  induction ops generalizing st with
  | nil => exact h
  | cons op rest ih => exact ih (applyOp fs op st) (BpInv_applyOp fs op st h)

theorem BpInv_initialState : BpInv initialState.breakpointId initialState.breakPoints := by
  intro e he
  cases he

theorem traceIds_bounded (fs : String → String) (ops : List RuntimeOp) (st : RuntimeState) :
    (traceIds fs ops st).Pairwise (· < ·) ∧
      ∀ i ∈ traceIds fs ops st, st.breakpointId < i := by
  induction ops generalizing st with
  | nil => simp [traceIds]
  | cons op rest ih =>
    obtain ⟨hp, hb⟩ := ih (applyOp fs op st)
    have hle := applyOp_breakpointId_le fs op st
    cases op with
    | set p l =>
      have hstep : (applyOp fs (RuntimeOp.set p l) st).breakpointId = st.breakpointId + 1 := by
        rw [applyOp, setBreakPoint_breakpointId]
      constructor
      · simp only [traceIds]
        refine List.Pairwise.cons ?_ hp
        intro i hi
        rw [setBreakPoint_fst_id]
        have h2 := hb i hi
        omega
      · intro i hi
        simp only [traceIds, List.mem_cons] at hi
        rcases hi with rfl | hi
        · rw [setBreakPoint_fst_id]
          omega
        · have h2 := hb i hi
          omega
    | clear p l =>
      refine ⟨by simp only [traceIds]; exact hp, fun i hi => ?_⟩
      simp only [traceIds] at hi
      exact lt_of_le_of_lt hle (hb i hi)
    | clearAll p =>
      refine ⟨by simp only [traceIds]; exact hp, fun i hi => ?_⟩
      simp only [traceIds] at hi
      exact lt_of_le_of_lt hle (hb i hi)
    | verify p =>
      refine ⟨by simp only [traceIds]; exact hp, fun i hi => ?_⟩
      simp only [traceIds] at hi
      exact lt_of_le_of_lt hle (hb i hi)
    | startOp f b =>
      refine ⟨by simp only [traceIds]; exact hp, fun i hi => ?_⟩
      simp only [traceIds] at hi
      exact lt_of_le_of_lt hle (hb i hi)
    | continueOp =>
      refine ⟨by simp only [traceIds]; exact hp, fun i hi => ?_⟩
      simp only [traceIds] at hi
      exact lt_of_le_of_lt hle (hb i hi)
    | stepOp ev =>
      refine ⟨by simp only [traceIds]; exact hp, fun i hi => ?_⟩
      simp only [traceIds] at hi
      exact lt_of_le_of_lt hle (hb i hi)
    | external ed info =>
      refine ⟨by simp only [traceIds]; exact hp, fun i hi => ?_⟩
      simp only [traceIds] at hi
      exact lt_of_le_of_lt hle (hb i hi)

/-- **C7**: across any whole-session trace of operations from the initial
state, the ids handed out by the successive `setBreakPoint` calls are
strictly increasing (hence never reused), however many breakpoints were
cleared in between. -/
theorem c7_breakpoint_ids_strictly_increasing (fs : String → String)
    (ops : List RuntimeOp) :
    (traceIds fs ops initialState).Pairwise (· < ·) :=
  (traceIds_bounded fs ops initialState).1

/-- **C8**: after any sequence of registry operations (sets, verification
passes, clears, whole-session calls included) from the initial state, every
breakpoint still stored is unverified: nothing ever flips `verified` to
`true`. -/
theorem c8_verified_never_true (fs : String → String) (ops : List RuntimeOp)
    (path : String) (bps : List VanessaBreakpoint) (bp : VanessaBreakpoint)
    (h : mapGet (runOps fs ops initialState).breakPoints path = some bps)
    (hbp : bp ∈ bps) : bp.verified = false :=
  (((BpInv_runOps fs ops initialState BpInv_initialState) (path, bps)
    (mapGet_some_mem h)).1 bp hbp).1

/-- Witness for C8 at a concrete trace: one set plus a verification pass
leaves the stored breakpoint unverified. -/
theorem c8_verified_never_true_witness :
    mapGet (runOps (fun _ => "Given x")
        [RuntimeOp.set "a.feature" 0, RuntimeOp.verify "a.feature"]
        initialState).breakPoints "a.feature" = some [⟨2, 0, false⟩] ∧
    (⟨2, 0, false⟩ : VanessaBreakpoint).verified = false :=
  ⟨by decide,
   c8_verified_never_true (fun _ => "Given x")
     [RuntimeOp.set "a.feature" 0, RuntimeOp.verify "a.feature"]
     "a.feature" [⟨2, 0, false⟩] ⟨2, 0, false⟩ (by decide) (by decide)⟩

/-- **C9 counterexample**: the claimed invariant "after normalization
settles, no two breakpoints of one file share the same `line`" is false.
Two `setBreakPoint` calls at line 0 of a file whose line 0 is ordinary
content reach a state on which the verification pass is already a fixpoint
(normalization has settled), yet the file holds two breakpoints (ids 2
and 3) with the same `line` 0. -/
theorem c9_counterexample :
    mapGet (runOps (fun _ => "Given x")
        [RuntimeOp.set "a.feature" 0, RuntimeOp.set "a.feature" 0]
        initialState).breakPoints "a.feature"
      = some [⟨2, 0, false⟩, ⟨3, 0, false⟩] ∧
    verifyBreakpoints (fun _ => "Given x") "a.feature"
        (runOps (fun _ => "Given x")
          [RuntimeOp.set "a.feature" 0, RuntimeOp.set "a.feature" 0] initialState)
      = runOps (fun _ => "Given x")
          [RuntimeOp.set "a.feature" 0, RuntimeOp.set "a.feature" 0] initialState := by
  decide

/-- **C9 (amended)**: line values of one file's breakpoints may be
duplicated even after normalization settles; the invariant the registry
does maintain is that, within one file, no two breakpoints share the same
`id` (ids are strictly increasing in insertion order). -/
theorem c9_amended_ids_distinct_per_file (fs : String → String) (ops : List RuntimeOp)
    (path : String) (bps : List VanessaBreakpoint)
    (h : mapGet (runOps fs ops initialState).breakPoints path = some bps) :
    bps.Pairwise (fun a b => a.id ≠ b.id) :=
  (((BpInv_runOps fs ops initialState BpInv_initialState) (path, bps)
    (mapGet_some_mem h)).2).imp (fun hab => Nat.ne_of_lt hab)

/-- Witness for the amended C9 at a concrete trace: the two same-line
breakpoints of the counterexample state still have distinct ids. -/
theorem c9_amended_ids_distinct_per_file_witness :
    mapGet (runOps (fun _ => "x")
        [RuntimeOp.set "b.feature" 4, RuntimeOp.set "b.feature" 4]
        initialState).breakPoints "b.feature"
      = some [⟨2, 4, false⟩, ⟨3, 4, false⟩] ∧
    ([⟨2, 4, false⟩, ⟨3, 4, false⟩] : List VanessaBreakpoint).Pairwise
      (fun a b => a.id ≠ b.id) :=
  ⟨by decide,
   c9_amended_ids_distinct_per_file (fun _ => "x")
     [RuntimeOp.set "b.feature" 4, RuntimeOp.set "b.feature" 4]
     "b.feature" [⟨2, 4, false⟩, ⟨3, 4, false⟩] (by decide)⟩

/-- **C6 counterexample**: the claim "malformed (invalidly encoded) status
file content does not crash the watcher, which waits for the next change" is
false on the code: the `JSON.parse` call in the watch callback is not
guarded by any try/catch, so non-empty content that is not valid JSON makes
the callback throw (modelled as `Except.error`) instead of being ignored. -/
theorem c6_counterexample :
    watchFileCallback (some "garbage") = Except.error "unexpected token" := rfl

/-- **C6 (amended)**: on a change notification, empty or unreadable content
is ignored without error and without any forwarded record; well-formed
content is decoded and forwarded to `setCurrentLineInSource`; but malformed
non-empty content makes the watcher callback propagate the `JSON.parse`
exception (it does not absorb it). -/
theorem c6_amended_watcher (s : String) (info : DebugInfo) (e : String) (hs : s ≠ "") :
    watchFileCallback none = Except.ok none ∧
    watchFileCallback (some "") = Except.ok none ∧
    (jsonParseDebugInfo s = Except.ok info →
      watchFileCallback (some s) = Except.ok (some info)) ∧
    (jsonParseDebugInfo s = Except.error e →
      watchFileCallback (some s) = Except.error e) := by
  refine ⟨rfl, rfl, ?_, ?_⟩
  · intro h
    simp [watchFileCallback, hs, h]
  · intro h
    simp [watchFileCallback, hs, h]

/-- Witness for the amended C6 at concrete inputs: a well-formed status
record is decoded and forwarded, and the concrete malformed content
`"garbage"` makes the callback propagate the parse error. -/
theorem c6_amended_watcher_witness :
    watchFileCallback (some "\x7b\"file\":\"a\",\"line\":3,\"status\":\"run\"\x7d")
      = Except.ok (some ⟨"a", 3, "run", none⟩) ∧
    watchFileCallback (some "nonsense") = Except.error "unexpected token" :=
  ⟨(c6_amended_watcher "\x7b\"file\":\"a\",\"line\":3,\"status\":\"run\"\x7d"
      ⟨"a", 3, "run", none⟩ "unexpected token" (by decide)).2.2.1 (by rfl),
   (c6_amended_watcher "nonsense" ⟨"a", 3, "run", none⟩ "unexpected token"
      (by decide)).2.2.2 (by rfl)⟩

/-! ### C10: external position updates -/

theorem start_true_events (fs : String → String) (f : String) (st : RuntimeState)
    (hwf : st.sourceFile = some f → st.sourceLines ≠ []) :
    (start fs f true st).2 = ["stopOnEntry"] := by
  have hsf : ({ loadSource fs f st with currentLine := -1 } : RuntimeState).sourceFile
      = some f := loadSource_sourceFile fs f st
  have hlines : (verifyBreakpoints fs f
      { loadSource fs f st with currentLine := -1 }).sourceLines ≠ [] := by
    rw [verifyBreakpoints_sourceLines_of_eq fs hsf]
    exact loadSource_sourceLines_ne_nil fs f st hwf
  have hcur : (verifyBreakpoints fs f
      { loadSource fs f st with currentLine := -1 }).currentLine = -1 := by
    rw [verifyBreakpoints_currentLine]
  have hlt : (verifyBreakpoints fs f
        { loadSource fs f st with currentLine := -1 }).currentLine + 1
      < (((verifyBreakpoints fs f
        { loadSource fs f st with currentLine := -1 }).sourceLines.length : Nat) : Int) := by
    rw [hcur]
    have hpos := List.length_pos.mpr hlines
    omega
  show (run (verifyBreakpoints fs f { loadSource fs f st with currentLine := -1 })
      (some "stopOnEntry")).2 = ["stopOnEntry"]
  rw [run_some_lt (by decide) hlt]

/-- **C10**: when the externally reported file equals the active editor
file, `setCurrentLineInSource` only sets `currentLine = record.line - 1`
and issues a single step-over command; when it differs, the requested
effects open and show the reported document first, then re-start it
(emitting only `stopOnEntry`), apply `currentLine = record.line - 1`, and
issue the step-over command — in neither case does this path emit a
`stopOnStep` or `end` event. -/
theorem c10_setCurrentLineInSource (fs : String → String) (st : RuntimeState)
    (info : DebugInfo) (f : String)
    (hwf : st.sourceFile = some info.file → st.sourceLines ≠ []) :
    (info.file = f →
      setCurrentLineInSource fs (some f) st info
        = ({ st with currentLine := info.line - 1 },
            [Effect.execCommand "workbench.action.debug.stepOver"])) ∧
    (info.file ≠ f →
      (setCurrentLineInSource fs (some f) st info).1.currentLine = info.line - 1 ∧
      (setCurrentLineInSource fs (some f) st info).2
        = [Effect.openDoc info.file, Effect.showDoc info.file,
            Effect.emitEvent "stopOnEntry",
            Effect.execCommand "workbench.action.debug.stepOver"] ∧
      Effect.emitEvent "stopOnStep" ∉ (setCurrentLineInSource fs (some f) st info).2 ∧
      Effect.emitEvent "end" ∉ (setCurrentLineInSource fs (some f) st info).2) := by
  constructor
  · intro h
    simp [setCurrentLineInSource, h]
  · intro h
    have hev := start_true_events fs info.file st hwf
    have heff : (setCurrentLineInSource fs (some f) st info).2
        = [Effect.openDoc info.file, Effect.showDoc info.file,
            Effect.emitEvent "stopOnEntry",
            Effect.execCommand "workbench.action.debug.stepOver"] := by
      simp [setCurrentLineInSource, h, hev]
    refine ⟨?_, heff, ?_, ?_⟩
    · simp [setCurrentLineInSource, h]
    · rw [heff]
      simp
    · rw [heff]
      simp

/-- Witness for C10 at a concrete input: the external process reports
`{file: "b.feature", line: 7}` while the editor shows `"a.feature"`. -/
theorem c10_setCurrentLineInSource_witness :
    (setCurrentLineInSource (fun _ => "Given x") (some "a.feature") initialState
        ⟨"b.feature", 7, "run", none⟩).1.currentLine = 6 ∧
    (setCurrentLineInSource (fun _ => "Given x") (some "a.feature") initialState
        ⟨"b.feature", 7, "run", none⟩).2
      = [Effect.openDoc "b.feature", Effect.showDoc "b.feature",
          Effect.emitEvent "stopOnEntry",
          Effect.execCommand "workbench.action.debug.stepOver"] ∧
    Effect.emitEvent "stopOnStep"
      ∉ (setCurrentLineInSource (fun _ => "Given x") (some "a.feature") initialState
          ⟨"b.feature", 7, "run", none⟩).2 ∧
    Effect.emitEvent "end"
      ∉ (setCurrentLineInSource (fun _ => "Given x") (some "a.feature") initialState
          ⟨"b.feature", 7, "run", none⟩).2 :=
  (c10_setCurrentLineInSource (fun _ => "Given x") initialState
      ⟨"b.feature", 7, "run", none⟩ "a.feature"
      (fun hcontra => absurd hcontra (by decide))).2 (by decide)
